import Mathlib

/-!
Verification development for the quantum-linguistics-app repository.

The repository is a small single-page application whose non-trivial logic is
a text-to-speech pipeline (`src/services/ttsService.js` and a second variant
of the same file) plus a string-templating question generator
(`src/services/cartesianLogic.js` and a variant) and a thin React app layer
(`src/App.jsx`, `AudioPlayer`).

Each JavaScript function relevant to the specification claims is shallowly
embedded below as an executable Lean definition.  Browser-side effects that
the code merely reacts to (the network, the media device, the narrator, the
DOM) are abstracted as explicit environment records and event/signal oracles
passed to the definitions, so every definition is a pure, computable
function of the code's inputs and of the environment's observable outcomes.
-/

set_option maxHeartbeats 1000000

/-! ## Speech-audio source provider: `textToSpeech` (ttsService.js lines 85-105)

`SpeechEnv` packages the observable outcomes of the external world for one
call: whether the OpenAI API key is configured, the outcome of the remote
synthesis request (`generateOpenAISpeech`, which rethrows any error), the
`URL.createObjectURL` allocator, whether `window.speechSynthesis` exists,
and the outcome of speaking one utterance (resolve on `onend`, reject on
`onerror`). -/

structure SpeechEnv where
  apiKeyPresent : Bool
  remote : String → String → Except String String
  createURL : String → String
  synthSupported : Bool
  narrator : String → Except String Unit

/-- Embedding of `generateBrowserSpeech` (ttsService.js lines 49-76): rejects
when the browser lacks `speechSynthesis`, otherwise resolves or rejects with
the utterance outcome. -/
def generateBrowserSpeech (env : SpeechEnv) (text : String) : Except String Unit :=
  if env.synthSupported then env.narrator text
  else Except.error "Browser does not support speech synthesis"

/-- Embedding of `textToSpeech` (ttsService.js lines 85-105).  The `try`
block either performs the remote call (when fallback is not forced and the
key is present) producing an object URL, or drives the browser narrator
producing `none`.  The `catch` block retries with the browser narrator when
fallback was not forced (a rejection of that retry propagates), and rethrows
the original error when fallback was forced. -/
def textToSpeech (env : SpeechEnv) (text voice : String)
    (useBrowserFallback : Bool) : Except String (Option String) :=
  let attempt : Except String (Option String) :=
    if !useBrowserFallback && env.apiKeyPresent then
      match env.remote text voice with
      | Except.ok blob => Except.ok (some (env.createURL blob))
      | Except.error e => Except.error e
    else
      match generateBrowserSpeech env text with
      | Except.ok _ => Except.ok none
      | Except.error e => Except.error e
  match attempt with
  | Except.ok v => Except.ok v
  | Except.error e =>
    if !useBrowserFallback then
      match generateBrowserSpeech env text with
      | Except.ok _ => Except.ok none
      | Except.error e2 => Except.error e2
    else Except.error e

/-! ## Audio preparation stage: `generateQuestionAudios`
(ttsService.js second variant lines 293-332, identical to part_000
lines 114-153)

An `AudioObj` models a preloaded `Audio` element: its `src` URL and the
duration learned at `onloadeddata`.  `PrepEnv` gives the per-call
environment of each `textToSpeech` invocation and the outcome of the
preload (`audio.load()` resolving at `onloadeddata` with the duration, or
rejecting at `onerror`). -/

structure AudioObj where
  src : String
  duration : Nat
deriving DecidableEq, Repr

structure PrepEnv where
  ttsEnvAt : Nat → SpeechEnv
  preload : Nat → String → Except String Nat

/-- One iteration of the `for` loop body of `generateQuestionAudios`: the
`try` block calls `textToSpeech` (fallback not forced); a thrown error is
caught and pushes `null`; a `null` URL (browser-narrator path) pushes
`null`; otherwise the `Audio` object is created and preloaded, a preload
rejection being caught by the same `try` and pushing `null`. -/
def prepItem (env : PrepEnv) (voice : String) (i : Nat) (q : String) :
    Option AudioObj :=
  match textToSpeech (env.ttsEnvAt i) q voice false with
  | Except.error _ => none
  | Except.ok none => none
  | Except.ok (some url) =>
    match env.preload i url with
    | Except.error _ => none
    | Except.ok dur => some { src := url, duration := dur }

/-- The `for` loop of `generateQuestionAudios`, pushing exactly one entry per
input question, in input order, starting at index `i`. -/
def generateQuestionAudiosGo (env : PrepEnv) (voice : String) :
    List String → Nat → List (Option AudioObj)
  | [], _ => []
  | q :: qs, i => prepItem env voice i q :: generateQuestionAudiosGo env voice qs (i + 1)

/-- Embedding of `generateQuestionAudios` (ttsService.js lines 293-332):
sequentially resolves every question text to a preloaded audio object or
`null`. -/
def generateQuestionAudios (env : PrepEnv) (questions : List String)
    (voice : String) : List (Option AudioObj) :=
  generateQuestionAudiosGo env voice questions 0

/-! ## Sequential playback controller, loop variant:
`playQuestionsSequentially` (ttsService.js second variant lines 341-453)

The loop awaits, for each non-null entry, a promise that resolves at the
first of: the `onended` event, the `onerror` event, rejection of
`audio.play()`, or the 15000 ms safety timeout (`hasResolved` guarantees a
single resolution).  `ItemSignal` is the environment's oracle for what the
media device does with item `i` and when (milliseconds after play). -/

inductive ItemSignal where
  | ended (t : Nat)
  | errored (t : Nat)
  | playFailed (t : Nat)
  | silent
deriving DecidableEq, Repr

/-- The 15 s per-item safety timeout of ttsService.js line 386. -/
def perItemTimeoutMs : Nat := 15000

/-- Time after which the per-item awaited promise resolves: the device
signal if it arrives before the safety timeout, else the timeout; a device
that never signals resolves exactly at the timeout. -/
def itemElapsed : ItemSignal → Nat
  | ItemSignal.ended t => min t perItemTimeoutMs
  | ItemSignal.errored t => min t perItemTimeoutMs
  | ItemSignal.playFailed t => min t perItemTimeoutMs
  | ItemSignal.silent => perItemTimeoutMs

/-- Observable events of one playback session, in order: the
`onQuestionStart(i)` callback, the resolution of item `i`'s awaited promise
(after `elapsed` ms), an inter-item pause of `d` ms, and the `onComplete`
callback. -/
inductive PlayEv where
  | qStart (i : Nat)
  | playDone (i : Nat) (elapsed : Nat)
  | pauseEv (d : Nat)
  | completeEv
deriving DecidableEq, Repr

/-- The `for` loop of `playQuestionsSequentially` (lines 353-447) starting at
index `i`: `onQuestionStart(i)` fires first; a `null` entry is skipped by
`continue` (also skipping the pause statement below it); a playable entry is
awaited and, when it is not the last list element, followed by the
configured pause. -/
def playLoop (sig : Nat → ItemSignal) (p : Nat) :
    List (Option AudioObj) → Nat → List PlayEv
  | [], _ => []
  | a :: rest, i =>
    PlayEv.qStart i ::
    match a with
    | none => playLoop sig p rest (i + 1)
    | some _ =>
      PlayEv.playDone i (itemElapsed (sig i)) ::
      if rest.isEmpty then playLoop sig p rest (i + 1)
      else PlayEv.pauseEv p :: playLoop sig p rest (i + 1)

/-- Embedding of `playQuestionsSequentially` (ttsService.js lines 341-453)
as the trace of its observable events; `onComplete` is invoked once, after
the loop (lines 450-452). -/
def playQuestionsSequentially (sig : Nat → ItemSignal)
    (audioObjects : List (Option AudioObj)) (pauseDuration : Nat) : List PlayEv :=
  playLoop sig pauseDuration audioObjects 0 ++ [PlayEv.completeEv]

/-- Number of `onComplete` invocations recorded in a trace. -/
def countComplete : List PlayEv → Nat
  | [] => 0
  | PlayEv.completeEv :: rest => countComplete rest + 1
  | _ :: rest => countComplete rest

/-- Wall-clock contribution of one event: callbacks are synchronous. -/
def elapsedOf : PlayEv → Nat
  | PlayEv.qStart _ => 0
  | PlayEv.playDone _ e => e
  | PlayEv.pauseEv d => d
  | PlayEv.completeEv => 0

/-- Total wall-clock time of a trace. -/
def totalElapsed : List PlayEv → Nat
  | [] => 0
  | e :: rest => elapsedOf e + totalElapsed rest

/-- The indices with which `onQuestionStart` fires, in order. -/
def startIndices (trace : List PlayEv) : List Nat :=
  trace.filterMap fun e =>
    match e with
    | PlayEv.qStart i => some i
    | _ => none

/-! ## Sequential playback controller, callback-chain variant with stop
handle (part_000 lines 163-262)

This variant reuses one shared `mainAudio` element, chains
`playNextQuestion` calls from `onended` / `onerror` / `play()`-rejection
callbacks and an inter-item `setTimeout`, and exposes a `control.stop`
handle that sets the `aborted` flag and pauses the shared device.  The
session is modelled as a state machine driven by the callbacks the browser
can still deliver; pausing the device means the pending `onended` of the
item being played will never fire, which the `stalled` phase records. -/

inductive PlayerPhase where
  | queued
  | playing
  | pausedBetween
  | finished
  | stalled
deriving DecidableEq, Repr

structure PlayerState where
  currentIndex : Nat
  aborted : Bool
  completions : Nat
  phase : PlayerPhase
deriving DecidableEq, Repr

/-- The synchronous self-recursion of `playNextQuestion` on `null` entries
(part_000 lines 208-213): advance `currentIndex` past consecutive `null`
entries; fuel bounds the recursion by the playlist length. -/
def skipNulls (pl : List (Option AudioObj)) : Nat → Nat → Nat
  | 0, idx => idx
  | fuel + 1, idx =>
    match pl[idx]? with
    | some none => skipNulls pl fuel (idx + 1)
    | _ => idx

/-- Embedding of one synchronous run of `playNextQuestion` (part_000 lines
189-254): an aborted session or an exhausted playlist invokes `onComplete`
and resolves; otherwise the next non-null entry is loaded into the shared
device and played (`onQuestionStart` firing first). -/
def playNext (pl : List (Option AudioObj)) (s : PlayerState) : PlayerState :=
  if s.aborted then
    { s with completions := s.completions + 1, phase := PlayerPhase.finished }
  else
    let j := skipNulls pl (pl.length + 1) s.currentIndex
    match pl[j]? with
    | some (some _) =>
      { s with currentIndex := j, phase := PlayerPhase.playing }
    | _ =>
      { s with currentIndex := j, completions := s.completions + 1,
               phase := PlayerPhase.finished }

/-- Callbacks a session can receive: the initial synchronous invocation of
`playNextQuestion` (part_000 line 257), the shared device's `onended` and
`onerror` events, rejection of `mainAudio.play()`, the inter-item pause
timer firing, and a call to `control.stop`. -/
inductive PlayerEvent where
  | invokeStart
  | audioEnded
  | audioError
  | playRejected
  | timerFired
  | stopCall
deriving DecidableEq, Repr

/-- Embedding of the event handlers of part_000 lines 178-258.  `onended`
(lines 224-235) advances the index and either arms the pause timer or calls
`playNextQuestion` directly; `onerror` (lines 237-241) and a rejected
`play()` (lines 248-252) advance and call `playNextQuestion` with no pause;
the pause timer (line 231) calls `playNextQuestion`; `control.stop` (lines
179-184) sets `aborted` and pauses the device, so an item being played will
never deliver its `onended` (phase `stalled`).  Events whose callback is
not pending leave the state unchanged. -/
def stepEvent (pl : List (Option AudioObj)) (s : PlayerState) :
    PlayerEvent → PlayerState
  | PlayerEvent.invokeStart =>
    if s.phase = PlayerPhase.queued then playNext pl s else s
  | PlayerEvent.audioEnded =>
    if s.phase = PlayerPhase.playing then
      let s' := { s with currentIndex := s.currentIndex + 1 }
      if s'.currentIndex < pl.length then
        { s' with phase := PlayerPhase.pausedBetween }
      else playNext pl { s' with phase := PlayerPhase.queued }
    else s
  | PlayerEvent.audioError =>
    if s.phase = PlayerPhase.playing then
      playNext pl { s with currentIndex := s.currentIndex + 1,
                           phase := PlayerPhase.queued }
    else s
  | PlayerEvent.playRejected =>
    if s.phase = PlayerPhase.playing then
      playNext pl { s with currentIndex := s.currentIndex + 1,
                           phase := PlayerPhase.queued }
    else s
  | PlayerEvent.timerFired =>
    if s.phase = PlayerPhase.pausedBetween then
      playNext pl { s with phase := PlayerPhase.queued }
    else s
  | PlayerEvent.stopCall =>
    if s.phase = PlayerPhase.playing then
      { s with aborted := true, phase := PlayerPhase.stalled }
    else { s with aborted := true }

/-- State of a session before `playQuestionsSequentially` runs its first
synchronous `playNextQuestion`. -/
def initialPlayerState : PlayerState :=
  { currentIndex := 0, aborted := false, completions := 0,
    phase := PlayerPhase.queued }

/-- Deliver a list of callbacks in order from a given state. -/
def runFrom (pl : List (Option AudioObj)) (s : PlayerState) :
    List PlayerEvent → PlayerState
  | [] => s
  | e :: es => runFrom pl (stepEvent pl s e) es

/-- Deliver a list of callbacks to a fresh session. -/
def runEvents (pl : List (Option AudioObj)) (es : List PlayerEvent) :
    PlayerState :=
  runFrom pl initialPlayerState es

/-! ## Lifecycle/resource cleanup: `cleanupAudioObjects`
(part_000 lines 268-280)

For each non-null audio whose `src` is non-empty (truthy), the blob URL is
revoked and the `src` reference cleared.  The function returns the updated
playlist together with the list of URLs revoked by this call. -/

/-- The `forEach` body of `cleanupAudioObjects` over the list. -/
def cleanupGo : List (Option AudioObj) → List (Option AudioObj) × List String
  | [] => ([], [])
  | a :: rest =>
    let r := cleanupGo rest
    match a with
    | some obj =>
      if obj.src ≠ "" then
        (some { obj with src := "" } :: r.1, obj.src :: r.2)
      else (some obj :: r.1, r.2)
    | none => (none :: r.1, r.2)

/-- Embedding of `cleanupAudioObjects` (part_000 lines 268-280), including
the early return on an empty (or missing) list. -/
def cleanupAudioObjects (audioObjects : List (Option AudioObj)) :
    List (Option AudioObj) × List String :=
  if audioObjects.isEmpty then (audioObjects, []) else cleanupGo audioObjects

/-! ## Cartesian logic engine (part_001: `parseBelief`,
`generateCartesianQuestions`, `generateTemplateQuestions`)

The string transformations use JavaScript regular-expression and string
primitives; they are embedded below as character-list functions:
`\s` ranges over whitespace, `\w` (for `\b` boundaries) over ASCII
alphanumerics and underscore, `i`-flagged patterns compare case-insensitively.
-/

/-- Whitespace characters matched by the JavaScript `\s` class (the subset
that can occur in belief text). -/
def jsIsSpace (c : Char) : Bool :=
  c = ' ' || c = '\t' || c = '\n' || c = '\r' || c = '\x0b' || c = '\x0c'

/-- Word characters of the JavaScript `\w` class, defining `\b` boundaries. -/
def isWordChar (c : Char) : Bool :=
  c.isAlphanum || c = '_'

/-- Case-insensitive anchored match of a pattern; returns the remainder. -/
def matchCI : List Char → List Char → Option (List Char)
  | [], s => some s
  | _ :: _, [] => none
  | p :: ps, c :: cs => if p.toLower = c.toLower then matchCI ps cs else none

/-- Case-sensitive anchored match of a pattern; returns the remainder. -/
def matchExact : List Char → List Char → Option (List Char)
  | [], s => some s
  | _ :: _, [] => none
  | p :: ps, c :: cs => if p = c then matchExact ps cs else none

/-- Greedily drop leading whitespace. -/
def dropWsMany : List Char → List Char
  | [] => []
  | c :: cs => if jsIsSpace c then dropWsMany cs else c :: cs

/-- Match `\s+`: at least one whitespace character, greedily consumed. -/
def dropWsPlus : List Char → Option (List Char)
  | [] => none
  | c :: cs => if jsIsSpace c then some (dropWsMany cs) else none

/-- Anchored match of words separated and followed by `\s+`,
case-insensitively (the shape of every `^I...\s+` pattern in
`generateTemplateQuestions`); returns the remainder after the trailing
whitespace. -/
def matchWordsCI : List String → List Char → Option (List Char)
  | [], s => some s
  | w :: ws, s =>
    match matchCI w.data s with
    | none => none
    | some rest =>
      match dropWsPlus rest with
      | none => none
      | some rest2 => matchWordsCI ws rest2

/-- One `String.prototype.replace` call with an anchored `i`-flagged pattern
of whitespace-separated words: replaces the matched prefix, or returns the
string unchanged. -/
def replaceAnchored (ws : List String) (repl : String) (s : String) : String :=
  match matchWordsCI ws s.data with
  | some rest => repl ++ String.mk rest
  | none => s

/-- JavaScript `trim`: strip leading and trailing whitespace. -/
def jsTrim (s : String) : String :=
  String.mk ((s.data.dropWhile jsIsSpace).reverse.dropWhile jsIsSpace).reverse

/-- Scanner for a global, case-insensitive, word-boundary replace
(`/\bword\b/gi`): `prevIsWord` tracks whether the previous character was a
word character; fuel bounds the recursion by the input length. -/
def replaceWordGo (w r : List Char) : Nat → Bool → List Char → List Char
  | 0, _, s => s
  | _ + 1, _, [] => []
  | fuel + 1, prevIsWord, c :: cs =>
    if !prevIsWord then
      match matchCI w (c :: cs) with
      | some rest =>
        if (match rest with | [] => true | d :: _ => !isWordChar d) then
          r ++ replaceWordGo w r fuel false rest
        else c :: replaceWordGo w r fuel (isWordChar c) cs
      | none => c :: replaceWordGo w r fuel (isWordChar c) cs
    else c :: replaceWordGo w r fuel (isWordChar c) cs

/-- One `String.prototype.replace(/\bw\b/gi, r)` call. -/
def replaceWordAll (w r : String) (s : String) : String :=
  String.mk (replaceWordGo w.data r.data s.data.length false s.data)

/-- `String.prototype.replace(pat, rep)` with a plain-string pattern:
replaces only the first occurrence, case-sensitively. -/
def replaceFirstSub (pat rep : List Char) : List Char → List Char
  | [] => []
  | c :: cs =>
    match matchExact pat (c :: cs) with
    | some rest => rep ++ rest
    | none => c :: replaceFirstSub pat rep cs

/-- `String.prototype.includes(pat)` for a non-empty pattern. -/
def containsSub (pat : List Char) : List Char → Bool
  | [] => false
  | c :: cs => (matchExact pat (c :: cs)).isSome || containsSub pat cs

/-- `String.prototype.includes` on strings. -/
def containsSubStr (pat s : String) : Bool :=
  containsSub pat.data s.data

/-- Scanner for a case-sensitive `\bw\b` search (`String.prototype.match`
with a word-bounded alternative). -/
def containsWordGo (w : List Char) : Bool → List Char → Bool
  | _, [] => false
  | prevIsWord, c :: cs =>
    (!prevIsWord &&
      (match matchExact w (c :: cs) with
       | some rest =>
         (match rest with | [] => true | d :: _ => !isWordChar d)
       | none => false)) ||
    containsWordGo w (isWordChar c) cs

/-- Whether `s` matches `/\bw\b/` somewhere. -/
def containsWord (w s : String) : Bool :=
  containsWordGo w.data false s.data

/-- Whether `s` matches `/\b(w1|w2|...)\b/` for any word in the list. -/
def containsAnyWord (ws : List String) (s : String) : Bool :=
  ws.any fun w => containsWord w s

/-- `cleanedBelief.replace(/^you\s+/, '')` of part_001 line 151
(case-sensitive, anchored). -/
def stripLeadingYou (s : List Char) : List Char :=
  match matchExact "you".data s with
  | some rest =>
    match dropWsPlus rest with
    | some r2 => r2
    | none => s
  | none => s

/-- Lowercase a string character-wise (JavaScript `toLowerCase` on the
ASCII beliefs this app handles). -/
def jsToLower (s : String) : String :=
  String.mk (s.data.map Char.toLower)

/-- Result of `parseBelief` (part_001 lines 24-40). -/
structure ParsedBelief where
  original : String
  verbType : String
  isNegative : Bool
deriving DecidableEq, Repr

/-- Embedding of `parseBelief` (part_001 lines 24-40): classify the verb type
by word-bounded search on the lowercased, trimmed belief, and detect
negativity by substring search. -/
def parseBelief (belief : String) : ParsedBelief :=
  let beliefLower := jsTrim (jsToLower belief)
  let verbType :=
    if containsAnyWord ["am", "is", "are", "be", "being"] beliefLower then
      "being"
    else if containsAnyWord
        ["have", "has", "having", "had", "get", "getting", "got"]
        beliefLower then
      "having"
    else "doing"
  { original := belief, verbType := verbType,
    isNegative := containsSubStr "can\x27t" beliefLower
      || containsSubStr "cannot" beliefLower
      || containsSubStr "not" beliefLower }

/-- The four-question result object; its fields are exactly the four keys
`theorem`, `converse`, `inverse`, `nonMirrorReverse` of the JavaScript
object (`theorem` is a reserved word in Lean, rendered `theoremQ`). -/
structure CartesianQuestionSet where
  theoremQ : String
  converse : String
  inverse : String
  nonMirrorReverse : String
deriving DecidableEq, Repr

/-- Embedding of `generateTemplateQuestions` (part_001 lines 115-160): the
chained anchored replaces converting first to second person, the global
word-bounded pronoun replaces, the derivation of the negative action, and
the four question templates.  The destructured `parsed` argument is accepted
but, as in the source, not used. -/
def generateTemplateQuestions (belief : String) (_parsed : ParsedBelief) :
    CartesianQuestionSet :=
  let s0 := jsTrim belief
  let s1 := replaceAnchored ["I", "can\x27t"] "you did " s0
  let s2 := replaceAnchored ["I", "cannot"] "you did " s1
  let s3 := replaceAnchored ["I", "am", "not"] "you were " s2
  let s4 := replaceAnchored ["I", "don\x27t"] "you did " s3
  let s5 := replaceAnchored ["I", "haven\x27t"] "you had " s4
  let s6 := replaceAnchored ["I\x27m"] "you were " s5
  let s7 := replaceAnchored ["I", "am"] "you were " s6
  let s8 := replaceAnchored ["I"] "you " s7
  let c1 := replaceWordAll "myself" "yourself" s8
  let c2 := replaceWordAll "me" "you" c1
  let c3 := replaceWordAll "my" "your" c2
  let cleanedBelief := replaceWordAll "mine" "yours" c3
  let positiveAction := cleanedBelief
  let negativeAction :=
    if containsSubStr "did " cleanedBelief then
      String.mk (replaceFirstSub "did ".data "didn\x27t ".data cleanedBelief.data)
    else if containsSubStr "were " cleanedBelief then
      String.mk (replaceFirstSub "were ".data "weren\x27t ".data cleanedBelief.data)
    else if containsSubStr "had " cleanedBelief then
      String.mk (replaceFirstSub "had ".data "hadn\x27t ".data cleanedBelief.data)
    else "you did not " ++ String.mk (stripLeadingYou cleanedBelief.data)
  { theoremQ := "What would happen if " ++ positiveAction ++ "?",
    converse := "What wouldn\x27t happen if " ++ positiveAction ++ "?",
    inverse := "What would happen if " ++ negativeAction ++ "?",
    nonMirrorReverse := "What wouldn\x27t happen if " ++ negativeAction ++ "?" }

/-- Embedding of `generateCartesianQuestions` (part_001 lines 47-107).  The
remote chat-completion call is the `api` oracle (its rejection is the
network/quota/server error), `parseJson` is the `JSON.parse` of the returned
content (its rejection is a parse error); both failure modes occur inside
the `try` and route to `generateTemplateQuestions`. -/
def generateCartesianQuestions (api : Except String String)
    (parseJson : String → Except String CartesianQuestionSet)
    (belief : String) : CartesianQuestionSet :=
  let parsed := parseBelief belief
  match api with
  | Except.ok content =>
    match parseJson content with
    | Except.ok qs => qs
    | Except.error _ => generateTemplateQuestions belief parsed
  | Except.error _ => generateTemplateQuestions belief parsed

/-! ## Application layer (App.jsx, AudioPlayer component)

`App.jsx` line 18 creates `pauseDurationRef = useRef(2000)` and `handlePlay`
(lines 78-95) passes `pauseDurationRef.current` to
`playQuestionsSequentially`; no code ever assigns to
`pauseDurationRef.current`.  The `AudioPlayer` component holds the
user-selected pause duration in its own `useState(2)` (seconds) and receives
only the props `onPlay`, `onStop`, `isPlaying`, `onNewSession`; the
selection never reaches `App`. -/

/-- The `AudioPlayer` component's local state: the pause-duration selection
in seconds (`useState(2)`). -/
structure AudioPlayerLocal where
  pauseDuration : Nat
deriving DecidableEq, Repr

/-- App-level state: the `pauseDurationRef` ref (ms), playback flags, the
prepared playlist, the `AudioPlayer` local state, and a log of the
`pauseDuration` arguments passed to `playQuestionsSequentially` by
`handlePlay`. -/
structure AppState where
  pauseDurationRef : Nat
  isPlaying : Bool
  currentQuestionIndex : Int
  audioObjects : List (Option AudioObj)
  playerLocal : AudioPlayerLocal
  playCalls : List Nat
deriving DecidableEq, Repr

/-- User/system events of the app layer: changing the pause-duration select
(AudioPlayer lines 136-146), pressing play (`handlePlay`), pressing stop
(`handleStop`), starting a new session (`handleNewSession`), and the
prepared audio list arriving (`handleBeliefSubmit` lines 40-48). -/
inductive AppEvent where
  | selectPauseDuration (n : Nat)
  | pressPlay
  | pressStop
  | newSession
  | audiosReady (l : List (Option AudioObj))
deriving DecidableEq, Repr

/-- Initial app state (`useRef(2000)`, `useState(2)`, empty playlist). -/
def initialAppState : AppState :=
  { pauseDurationRef := 2000, isPlaying := false, currentQuestionIndex := -1,
    audioObjects := [], playerLocal := { pauseDuration := 2 },
    playCalls := [] }

/-- Embedding of the app layer handlers.  `selectPauseDuration` runs
`setPauseDuration` on the `AudioPlayer` local state only; `pressPlay` runs
`handlePlay`, which returns early on an empty playlist and otherwise passes
`pauseDurationRef.current` to `playQuestionsSequentially` (recorded in
`playCalls`); `pressStop` runs `handleStop`; `newSession` runs
`handleNewSession` (a `handleStop` plus resets). -/
def appStep (s : AppState) : AppEvent → AppState
  | AppEvent.selectPauseDuration n =>
    { s with playerLocal := { pauseDuration := n } }
  | AppEvent.pressPlay =>
    if s.audioObjects.isEmpty then s
    else { s with isPlaying := true,
                  playCalls := s.pauseDurationRef :: s.playCalls }
  | AppEvent.pressStop =>
    { s with isPlaying := false, currentQuestionIndex := -1 }
  | AppEvent.newSession =>
    { s with isPlaying := false, currentQuestionIndex := -1,
             audioObjects := [] }
  | AppEvent.audiosReady l =>
    { s with audioObjects := l }

/-- Run a sequence of app events from a state. -/
def runAppFrom (s : AppState) : List AppEvent → AppState
  | [] => s
  | e :: es => runAppFrom (appStep s e) es

/-- Run a sequence of app events from the initial state. -/
def runApp (es : List AppEvent) : AppState :=
  runAppFrom initialAppState es

/-! ## Theorems -/

/-- Helper: the preparation loop pushes exactly one entry per question. -/
theorem generateQuestionAudiosGo_length (env : PrepEnv) (voice : String) :
    ∀ (qs : List String) (i : Nat),
      (generateQuestionAudiosGo env voice qs i).length = qs.length := by
  intro qs
  induction qs with
  | nil => intro i; rfl
  | cons q qs ih =>
    intro i
    simp [generateQuestionAudiosGo, ih]

/-- Helper: the entry at offset `k` of the preparation loop started at index
`i` is the per-item result for input `k` at absolute index `i + k`. -/
theorem generateQuestionAudiosGo_getElem (env : PrepEnv) (voice : String) :
    ∀ (qs : List String) (i k : Nat),
      (generateQuestionAudiosGo env voice qs i)[k]? =
        (qs[k]?).map (fun q => prepItem env voice (i + k) q) := by
  intro qs
  induction qs with
  | nil => intro i k; rfl
  | cons q qs ih =>
    intro i k
    cases k with
    | zero => simp [generateQuestionAudiosGo]
    | succ k =>
      have hidx : i + 1 + k = i + (k + 1) := by omega
      simp only [generateQuestionAudiosGo, List.getElem?_cons_succ, ih, hidx]

/-- C1: `generateQuestionAudios` returns a list of the same length as its
input, the entry at index `k` being exactly the per-item preparation result
of the input at index `k`; a per-item `textToSpeech` rejection, and a
per-item preload rejection, each yield a `null` entry at that index (the
function is total, so no input makes the batch throw or abort). -/
theorem generateQuestionAudios_length_order (env : PrepEnv) (voice : String)
    (questions : List String) (k : Nat) :
    (generateQuestionAudios env questions voice).length = questions.length
    ∧ (generateQuestionAudios env questions voice)[k]? =
        (questions[k]?).map (fun q => prepItem env voice k q)
    ∧ (∀ q e, textToSpeech (env.ttsEnvAt k) q voice false = Except.error e →
        prepItem env voice k q = none)
    ∧ (∀ q url e,
        textToSpeech (env.ttsEnvAt k) q voice false = Except.ok (some url) →
        env.preload k url = Except.error e →
        prepItem env voice k q = none) := by
  refine ⟨generateQuestionAudiosGo_length env voice questions 0, ?_, ?_, ?_⟩
  · have h := generateQuestionAudiosGo_getElem env voice questions 0 k
    simpa [generateQuestionAudios] using h
  · intro q e h
    simp [prepItem, h]
  · intro q url e h h2
    simp [prepItem, h, h2]

/-- A concrete preparation environment whose remote call fails and whose
narrator errors, so that every item fails to synthesize. -/
def c1FailEnv : PrepEnv :=
  { ttsEnvAt := fun _ =>
      { apiKeyPresent := true, remote := fun _ _ => Except.error "net",
        createURL := id, synthSupported := true,
        narrator := fun _ => Except.error "boom" },
    preload := fun _ _ => Except.ok 1000 }

/-- Witness for C1: on the failing environment the per-item hypothesis holds
concretely and the theorem yields the `null` entry. -/
theorem generateQuestionAudios_length_order_witness :
    textToSpeech (c1FailEnv.ttsEnvAt 0) "hello" "alloy" false =
      Except.error "boom"
    ∧ prepItem c1FailEnv "alloy" 0 "hello" = none :=
  ⟨rfl,
   (generateQuestionAudios_length_order c1FailEnv "alloy" ["hello"] 0).2.2.1
     "hello" "boom" rfl⟩

/-- Helper: the playback loop itself never invokes `onComplete`. -/
theorem countComplete_playLoop (sig : Nat → ItemSignal) (p : Nat) :
    ∀ (audios : List (Option AudioObj)) (i : Nat),
      countComplete (playLoop sig p audios i) = 0 := by
  intro audios
  induction audios with
  | nil => intro i; rfl
  | cons a rest ih =>
    intro i
    cases a with
    | none => simp [playLoop, countComplete, ih]
    | some obj =>
      by_cases h : rest.isEmpty <;>
        simp [playLoop, countComplete, h, ih]

/-- Helper: appending the final `onComplete` adds exactly one completion. -/
theorem countComplete_concat (l : List PlayEv) :
    countComplete (l ++ [PlayEv.completeEv]) = countComplete l + 1 := by
  induction l with
  | nil => rfl
  | cons e t ih => cases e <;> simp [countComplete, ih]

/-- Helper: over an all-`null` playlist the loop emits only the
`onQuestionStart` callbacks, one per index in order. -/
theorem playLoop_all_none (sig : Nat → ItemSignal) (p : Nat) :
    ∀ (audios : List (Option AudioObj)) (i : Nat),
      (∀ x ∈ audios, x = Option.none) →
      playLoop sig p audios i =
        (List.range' i audios.length).map PlayEv.qStart := by
  intro audios
  induction audios with
  | nil => intro i _; rfl
  | cons a rest ih =>
    intro i hall
    have ha : a = Option.none := hall a (by simp)
    subst ha
    have h1 : ∀ x ∈ rest, x = Option.none := fun x hx => hall x (by simp [hx])
    simp [playLoop, ih _ h1, List.range'_succ]

/-- Helper: a trace of `onQuestionStart` callbacks takes no wall-clock time. -/
theorem totalElapsed_map_qStart (l : List Nat) :
    totalElapsed (l.map PlayEv.qStart) = 0 := by
  induction l with
  | nil => rfl
  | cons i t ih => simp [totalElapsed, elapsedOf, ih]

/-- Helper: wall-clock time adds over trace concatenation. -/
theorem totalElapsed_append (l1 l2 : List PlayEv) :
    totalElapsed (l1 ++ l2) = totalElapsed l1 + totalElapsed l2 := by
  induction l1 with
  | nil => simp [totalElapsed]
  | cons e t ih => simp [totalElapsed, ih]; omega

/-- C2: every playback run invokes `onComplete` exactly once, as the final
event of the session; on an all-`null` playlist the run degenerates to the
`onQuestionStart` callbacks followed immediately by `onComplete`, taking
zero wall-clock time (the `continue` path schedules no pause). -/
theorem playQuestionsSequentially_onComplete_once (sig : Nat → ItemSignal)
    (audios : List (Option AudioObj)) (p : Nat) :
    countComplete (playQuestionsSequentially sig audios p) = 1
    ∧ (playQuestionsSequentially sig audios p).getLast? =
        some PlayEv.completeEv
    ∧ ((∀ x ∈ audios, x = Option.none) →
        playQuestionsSequentially sig audios p =
          (List.range audios.length).map PlayEv.qStart ++ [PlayEv.completeEv]
        ∧ totalElapsed (playQuestionsSequentially sig audios p) = 0) := by
  refine ⟨?_, ?_, ?_⟩
  · simp [playQuestionsSequentially, countComplete_concat,
      countComplete_playLoop]
  · simp [playQuestionsSequentially]
  · intro hall
    have hloop := playLoop_all_none sig p audios 0 hall
    constructor
    · simp [playQuestionsSequentially, hloop, List.range_eq_range']
    · simp [playQuestionsSequentially, hloop, totalElapsed_append,
        totalElapsed_map_qStart, totalElapsed, elapsedOf]

/-- Witness for C2: a concrete all-`null` playlist of length two completes
immediately with one `onComplete`. -/
theorem playQuestionsSequentially_onComplete_once_witness :
    (∀ x ∈ ([Option.none, Option.none] : List (Option AudioObj)),
      x = Option.none)
    ∧ playQuestionsSequentially (fun _ => ItemSignal.silent)
        [Option.none, Option.none] 2000 =
        (List.range 2).map PlayEv.qStart ++ [PlayEv.completeEv]
    ∧ totalElapsed (playQuestionsSequentially (fun _ => ItemSignal.silent)
        [Option.none, Option.none] 2000) = 0 :=
  ⟨by decide,
   ((playQuestionsSequentially_onComplete_once (fun _ => ItemSignal.silent)
      [Option.none, Option.none] 2000).2.2 (by decide)).1,
   ((playQuestionsSequentially_onComplete_once (fun _ => ItemSignal.silent)
      [Option.none, Option.none] 2000).2.2 (by decide)).2⟩

/-- Helper: no per-item await lasts longer than the safety timeout. -/
theorem itemElapsed_le (s : ItemSignal) : itemElapsed s ≤ perItemTimeoutMs := by
  cases s <;> simp [itemElapsed]

/-- Helper: a playable entry at offset `k` of the loop started at `i`
resolves in the trace at absolute index `i + k` after `itemElapsed` of its
signal. -/
theorem playDone_mem_playLoop (sig : Nat → ItemSignal) (p : Nat) :
    ∀ (audios : List (Option AudioObj)) (i k : Nat) (a : AudioObj),
      audios[k]? = some (some a) →
      PlayEv.playDone (i + k) (itemElapsed (sig (i + k))) ∈
        playLoop sig p audios i := by
  intro audios
  induction audios with
  | nil => intro i k a h; simp at h
  | cons x rest ih =>
    intro i k a h
    cases k with
    | zero =>
      simp only [List.getElem?_cons_zero, Option.some.injEq] at h
      subst h
      by_cases he : rest.isEmpty <;> simp [playLoop, he]
    | succ k =>
      have h' : rest[k]? = some (some a) := by simpa using h
      have hidx : i + (k + 1) = (i + 1) + k := by omega
      rw [hidx]
      have hm := ih (i + 1) k a h'
      cases x with
      | none =>
        exact List.mem_cons_of_mem _ hm
      | some b =>
        by_cases he : rest.isEmpty
        · rw [List.isEmpty_iff] at he
          subst he
          simp at h'
        · simp only [playLoop, he, if_false]
          exact List.mem_cons_of_mem _ (List.mem_cons_of_mem _
            (List.mem_cons_of_mem _ hm))

/-- Helper: every resolution time recorded by the loop is bounded by the
safety timeout. -/
theorem playDone_bound_playLoop (sig : Nat → ItemSignal) (p : Nat) :
    ∀ (audios : List (Option AudioObj)) (i j t : Nat),
      PlayEv.playDone j t ∈ playLoop sig p audios i → t ≤ perItemTimeoutMs := by
  intro audios
  induction audios with
  | nil => intro i j t h; simp [playLoop] at h
  | cons x rest ih =>
    intro i j t h
    cases x with
    | none =>
      simp only [playLoop, List.mem_cons] at h
      rcases h with h | h
      · exact absurd h (by simp)
      · exact ih _ _ _ h
    | some b =>
      by_cases he : rest.isEmpty <;>
        simp [playLoop, he, List.mem_cons] at h <;>
        rcases h with ⟨hj, ht⟩ | h
      · exact ht ▸ itemElapsed_le _
      · exact ih _ _ _ h
      · exact ht ▸ itemElapsed_le _
      · exact ih _ _ _ h

/-- C4: a playable playlist entry whose device never signals end or error is
advanced exactly at the 15000 ms safety timeout — its awaited promise
resolves after `perItemTimeoutMs = 15000` milliseconds, not before and not
never — and no entry whatsoever holds the session longer than that bound. -/
theorem playQuestionsSequentially_timeout (sig : Nat → ItemSignal)
    (audios : List (Option AudioObj)) (p k : Nat) (a : AudioObj)
    (hk : audios[k]? = some (some a)) (hsig : sig k = ItemSignal.silent) :
    PlayEv.playDone k perItemTimeoutMs ∈
      playQuestionsSequentially sig audios p
    ∧ perItemTimeoutMs = 15000
    ∧ (∀ j t, PlayEv.playDone j t ∈ playQuestionsSequentially sig audios p →
        t ≤ perItemTimeoutMs) := by
  refine ⟨?_, rfl, ?_⟩
  · have hm := playDone_mem_playLoop sig p audios 0 k a hk
    rw [Nat.zero_add] at hm
    rw [hsig] at hm
    simp only [itemElapsed] at hm
    exact List.mem_append_left _ hm
  · intro j t h
    rcases List.mem_append.mp h with h | h
    · exact playDone_bound_playLoop sig p audios 0 j t h
    · simp at h

/-- Witness for C4: a one-item playlist whose device stays silent resolves
that item exactly at 15000 ms. -/
theorem playQuestionsSequentially_timeout_witness :
    (([some { src := "u", duration := 3 }] : List (Option AudioObj))[0]? =
      some (some { src := "u", duration := 3 }))
    ∧ PlayEv.playDone 0 perItemTimeoutMs ∈
        playQuestionsSequentially (fun _ => ItemSignal.silent)
          [some { src := "u", duration := 3 }] 2000 :=
  ⟨rfl,
   (playQuestionsSequentially_timeout (fun _ => ItemSignal.silent)
      [some { src := "u", duration := 3 }] 2000 0
      { src := "u", duration := 3 } rfl rfl).1⟩

/-- C5: a `null` playlist entry contributes only its `onQuestionStart`
callback to the trace — no pause and no playback of its own (second
conjunct, the `continue` path); consequently two playable entries separated
by a `null` entry are separated by exactly the one standard configured
pause that was already scheduled after the preceding playable item, so the
pause timing of the neighbouring playable entries is exactly the configured
pause (first conjunct, shown on the playlist `[clip, null, clip]`). -/
theorem playQuestionsSequentially_null_pause_timing (sig : Nat → ItemSignal)
    (p : Nat) (a b : AudioObj) :
    playQuestionsSequentially sig [some a, Option.none, some b] p =
      [PlayEv.qStart 0, PlayEv.playDone 0 (itemElapsed (sig 0)),
       PlayEv.pauseEv p, PlayEv.qStart 1, PlayEv.qStart 2,
       PlayEv.playDone 2 (itemElapsed (sig 2)), PlayEv.completeEv]
    ∧ (∀ (rest : List (Option AudioObj)) (i : Nat),
        playLoop sig p (Option.none :: rest) i =
          PlayEv.qStart i :: playLoop sig p rest (i + 1)) :=
  ⟨rfl, fun _ _ => rfl⟩

/-- Helper: the `onQuestionStart` indices of the loop started at `i` over a
playlist of length `n` are exactly `i, i+1, ..., i+n-1`, in order. -/
theorem startIndices_playLoop (sig : Nat → ItemSignal) (p : Nat) :
    ∀ (audios : List (Option AudioObj)) (i : Nat),
      startIndices (playLoop sig p audios i) =
        List.range' i audios.length := by
  intro audios
  induction audios with
  | nil => intro i; rfl
  | cons x rest ih =>
    intro i
    cases x with
    | none =>
      simp [playLoop, startIndices, List.filterMap_cons, List.range'_succ]
      simpa [startIndices] using ih (i + 1)
    | some b =>
      by_cases he : rest.isEmpty <;>
        simp [playLoop, startIndices, List.filterMap_cons, he,
          List.range'_succ] <;>
        simpa [startIndices] using ih (i + 1)

/-- Helper: a playable entry's `onQuestionStart` callback immediately
precedes its playback resolution in the trace. -/
theorem qStart_playDone_adjacent (sig : Nat → ItemSignal) (p : Nat) :
    ∀ (audios : List (Option AudioObj)) (i k : Nat) (a : AudioObj),
      audios[k]? = some (some a) →
      ∃ pre suf, playLoop sig p audios i =
        pre ++ PlayEv.qStart (i + k) ::
          PlayEv.playDone (i + k) (itemElapsed (sig (i + k))) :: suf := by
  intro audios
  induction audios with
  | nil => intro i k a h; simp at h
  | cons x rest ih =>
    intro i k a h
    cases k with
    | zero =>
      simp only [List.getElem?_cons_zero, Option.some.injEq] at h
      subst h
      simp only [Nat.add_zero]
      exact ⟨[], _, rfl⟩
    | succ k =>
      have h' : rest[k]? = some (some a) := by simpa using h
      have hidx : i + (k + 1) = (i + 1) + k := by omega
      rw [hidx]
      obtain ⟨pre, suf, hdec⟩ := ih (i + 1) k a h'
      cases x with
      | none =>
        refine ⟨PlayEv.qStart i :: pre, suf, ?_⟩
        simp [playLoop, hdec]
      | some b =>
        by_cases he : rest.isEmpty
        · rw [List.isEmpty_iff] at he
          subst he
          simp at h'
        · refine ⟨PlayEv.qStart i ::
            PlayEv.playDone i (itemElapsed (sig i)) ::
            PlayEv.pauseEv p :: pre, suf, ?_⟩
          simp [playLoop, he, hdec]

/-- C6: over any playlist the `onQuestionStart` indices form exactly the
sequence `0, 1, ..., n-1` — each index exactly once, strictly increasing
(in particular over a playlist of `n` valid items) — and for every playable
entry `k` the `onQuestionStart(k)` callback occurs in the trace immediately
before the device plays item `k`. -/
theorem playQuestionsSequentially_onItemStart_order (sig : Nat → ItemSignal)
    (audios : List (Option AudioObj)) (p : Nat) :
    startIndices (playQuestionsSequentially sig audios p) =
      List.range audios.length
    ∧ (∀ k a, audios[k]? = some (some a) →
        ∃ pre suf, playQuestionsSequentially sig audios p =
          pre ++ PlayEv.qStart k ::
            PlayEv.playDone k (itemElapsed (sig k)) :: suf) := by
  constructor
  · rw [List.range_eq_range']
    have h := startIndices_playLoop sig p audios 0
    simpa [playQuestionsSequentially, startIndices, List.filterMap_append]
      using h
  · intro k a hk
    obtain ⟨pre, suf, hdec⟩ := qStart_playDone_adjacent sig p audios 0 k a hk
    rw [Nat.zero_add] at hdec
    refine ⟨pre, suf ++ [PlayEv.completeEv], ?_⟩
    simp [playQuestionsSequentially, hdec]

/-- Witness for C6: on a concrete one-item playlist the start callback
immediately precedes the item's playback. -/
theorem playQuestionsSequentially_onItemStart_order_witness :
    (([some { src := "u", duration := 3 }] : List (Option AudioObj))[0]? =
      some (some { src := "u", duration := 3 }))
    ∧ (∃ pre suf,
        playQuestionsSequentially (fun _ => ItemSignal.ended 1000)
          [some { src := "u", duration := 3 }] 2000 =
          pre ++ PlayEv.qStart 0 ::
            PlayEv.playDone 0
              (itemElapsed ((fun _ => ItemSignal.ended 1000) 0)) :: suf) :=
  ⟨rfl,
   (playQuestionsSequentially_onItemStart_order
      (fun _ => ItemSignal.ended 1000)
      [some { src := "u", duration := 3 }] 2000).2 0
      { src := "u", duration := 3 } rfl⟩

/-- A concrete one-clip playlist for exercising the stop handle. -/
def c3Playlist : List (Option AudioObj) := [some { src := "u", duration := 3 }]

/-- Counterexample for C3: start the part_000 session on a one-item
playlist (the first `playNextQuestion` runs synchronously and the item
starts playing), then call `control.stop` while the item is playing.  The
stop pauses the shared device, so the pending `onended` never fires: the
session is stalled with zero `onComplete` invocations, and delivering every
remaining callback kind (even stale ones, and a second stop) still yields
zero `onComplete` invocations — refuting "still triggers onComplete exactly
once". -/
theorem stop_mid_item_never_completes :
    (runEvents c3Playlist
      [PlayerEvent.invokeStart, PlayerEvent.stopCall]).phase =
        PlayerPhase.stalled
    ∧ (runEvents c3Playlist
        [PlayerEvent.invokeStart, PlayerEvent.stopCall]).completions = 0
    ∧ (runEvents c3Playlist
        [PlayerEvent.invokeStart, PlayerEvent.stopCall,
         PlayerEvent.audioEnded, PlayerEvent.audioError,
         PlayerEvent.playRejected, PlayerEvent.timerFired,
         PlayerEvent.invokeStart, PlayerEvent.stopCall]).completions = 0 := by
  refine ⟨rfl, rfl, rfl⟩

/-- Helper: `control.stop` always sets the `aborted` flag and never leaves
an item playing. -/
theorem stopCall_sets_aborted (pl : List (Option AudioObj))
    (s : PlayerState) :
    (stepEvent pl s PlayerEvent.stopCall).aborted = true
    ∧ (stepEvent pl s PlayerEvent.stopCall).phase ≠ PlayerPhase.playing := by
  obtain ⟨ci, ab, co, ph⟩ := s
  cases ph <;> simp [stepEvent]

/-- Helper: once aborted with no item playing, no later callback ever
starts an item playing, and the flag stays set. -/
theorem aborted_never_plays (pl : List (Option AudioObj)) :
    ∀ (es : List PlayerEvent) (s : PlayerState), s.aborted = true →
      s.phase ≠ PlayerPhase.playing →
      (runFrom pl s es).aborted = true
      ∧ (runFrom pl s es).phase ≠ PlayerPhase.playing := by
  intro es
  induction es with
  | nil => intro s ha hp; exact ⟨ha, hp⟩
  | cons e es ih =>
    intro s ha hp
    have hstep : (stepEvent pl s e).aborted = true
        ∧ (stepEvent pl s e).phase ≠ PlayerPhase.playing := by
      obtain ⟨ci, ab, co, ph⟩ := s
      simp only at ha
      subst ha
      cases ph <;> cases e <;> simp_all [stepEvent, playNext]
    exact ih (stepEvent pl s e) hstep.1 hstep.2

/-- Helper: a stalled aborted session absorbs every callback unchanged. -/
theorem stalled_absorbing (pl : List (Option AudioObj)) :
    ∀ (es : List PlayerEvent) (s : PlayerState), s.aborted = true →
      s.phase = PlayerPhase.stalled → runFrom pl s es = s := by
  intro es
  induction es with
  | nil => intro s _ _; rfl
  | cons e es ih =>
    intro s ha hp
    have hstep : stepEvent pl s e = s := by
      obtain ⟨ci, ab, co, ph⟩ := s
      simp only at ha hp
      subst ha
      subst hp
      cases e <;> simp [stepEvent]
    rw [runFrom, hstep]
    exact ih s ha hp

/-- Helper: a finished session keeps its completion count and phase under
every later callback. -/
theorem finished_absorbing (pl : List (Option AudioObj)) :
    ∀ (es : List PlayerEvent) (s : PlayerState),
      s.phase = PlayerPhase.finished →
      (runFrom pl s es).completions = s.completions
      ∧ (runFrom pl s es).phase = PlayerPhase.finished := by
  intro es
  induction es with
  | nil => intro s hp; exact ⟨rfl, hp⟩
  | cons e es ih =>
    intro s hp
    have hstep : (stepEvent pl s e).completions = s.completions
        ∧ (stepEvent pl s e).phase = PlayerPhase.finished := by
      obtain ⟨ci, ab, co, ph⟩ := s
      simp only at hp
      subst hp
      cases e <;> simp [stepEvent]
    obtain ⟨h1, h2⟩ := ih (stepEvent pl s e) hstep.2
    exact ⟨h1.trans hstep.1, h2⟩

/-- C3 (amended): `control.stop` is safe from any state and idempotent
(a second `stop` is a no-op), and after a `stop` no further item ever
starts playing; a `stop` issued before the first scheduling step or while
the inter-item pause timer is pending still leads to exactly one
`onComplete` (the pending step fires it, and the finished session never
fires it again); but a `stop` issued while an item is playing pauses the
device, stalls the session, and `onComplete` is then never invoked. -/
theorem stop_semantics_amended (pl : List (Option AudioObj))
    (s : PlayerState) (es : List PlayerEvent) :
    stepEvent pl (stepEvent pl s PlayerEvent.stopCall) PlayerEvent.stopCall =
      stepEvent pl s PlayerEvent.stopCall
    ∧ (runFrom pl (stepEvent pl s PlayerEvent.stopCall) es).aborted = true
    ∧ (runFrom pl (stepEvent pl s PlayerEvent.stopCall) es).phase ≠
        PlayerPhase.playing
    ∧ (s.phase = PlayerPhase.pausedBetween →
        (stepEvent pl (stepEvent pl s PlayerEvent.stopCall)
          PlayerEvent.timerFired).completions = s.completions + 1
        ∧ (stepEvent pl (stepEvent pl s PlayerEvent.stopCall)
            PlayerEvent.timerFired).phase = PlayerPhase.finished)
    ∧ (s.phase = PlayerPhase.playing →
        (runFrom pl (stepEvent pl s PlayerEvent.stopCall) es).completions =
          s.completions) := by
  obtain ⟨hab, hph⟩ := stopCall_sets_aborted pl s
  refine ⟨?_, (aborted_never_plays pl es _ hab hph).1,
    (aborted_never_plays pl es _ hab hph).2, ?_, ?_⟩
  · obtain ⟨ci, ab, co, ph⟩ := s
    cases ph <;> simp [stepEvent]
  · intro hp
    obtain ⟨ci, ab, co, ph⟩ := s
    simp only at hp
    subst hp
    simp [stepEvent, playNext]
  · intro hp
    obtain ⟨ci, ab, co, ph⟩ := s
    simp only at hp
    subst hp
    have hstall : stepEvent pl ⟨ci, ab, co, PlayerPhase.playing⟩
        PlayerEvent.stopCall =
        ⟨ci, true, co, PlayerPhase.stalled⟩ := by
      simp [stepEvent]
    rw [hstall, stalled_absorbing pl es _ rfl rfl]

/-- Witness for C3 (amended): on a concrete two-item playlist, stop during
the inter-item pause still completes exactly once, and stop while playing
never completes. -/
theorem stop_semantics_amended_witness :
    ((runEvents [some { src := "u", duration := 3 },
        some { src := "v", duration := 4 }]
        [PlayerEvent.invokeStart, PlayerEvent.audioEnded]).phase =
      PlayerPhase.pausedBetween)
    ∧ (stepEvent [some { src := "u", duration := 3 },
        some { src := "v", duration := 4 }]
        (stepEvent [some { src := "u", duration := 3 },
          some { src := "v", duration := 4 }]
          (runEvents [some { src := "u", duration := 3 },
            some { src := "v", duration := 4 }]
            [PlayerEvent.invokeStart, PlayerEvent.audioEnded])
          PlayerEvent.stopCall)
        PlayerEvent.timerFired).completions =
      (runEvents [some { src := "u", duration := 3 },
        some { src := "v", duration := 4 }]
        [PlayerEvent.invokeStart, PlayerEvent.audioEnded]).completions + 1 :=
  ⟨rfl,
   ((stop_semantics_amended [some { src := "u", duration := 3 },
      some { src := "v", duration := 4 }]
      (runEvents [some { src := "u", duration := 3 },
        some { src := "v", duration := 4 }]
        [PlayerEvent.invokeStart, PlayerEvent.audioEnded]) []).2.2.2.1
      rfl).1⟩

/-- An environment whose remote synthesis fails and whose browser narrator
is supported but rejects the utterance (`utterance.onerror`). -/
def c7ErrEnv : SpeechEnv :=
  { apiKeyPresent := true, remote := fun _ _ => Except.error "network",
    createURL := id, synthSupported := true,
    narrator := fun _ => Except.error "utterance-error" }

/-- Counterexample for C7: with fallback not forced and the remote call
failing, `textToSpeech` surfaces an error even though a fallback path
exists — the browser narrator is supported (and fallback was not forced),
it merely rejected the utterance.  This refutes "the error is surfaced to
the caller only when no fallback path exists (local narrator unsupported or
fallback already forced)". -/
theorem textToSpeech_error_despite_fallback_path :
    textToSpeech c7ErrEnv "hello" "alloy" false =
      Except.error "utterance-error"
    ∧ c7ErrEnv.synthSupported = true
    ∧ c7ErrEnv.apiKeyPresent = true
    ∧ c7ErrEnv.remote "hello" "alloy" = Except.error "network" :=
  ⟨rfl, rfl, rfl, rfl⟩

/-- C7 (amended): when fallback is not forced and the remote synthesis call
fails, `textToSpeech` catches the error and retries with the browser
narrator, resolving with `null` whenever that fallback attempt succeeds;
the error is surfaced to the caller only when the fallback attempt itself
rejects (narrator unsupported, or the utterance errors) or when fallback
was already forced. -/
theorem textToSpeech_fallback_amended (env : SpeechEnv)
    (text voice e : String) (hkey : env.apiKeyPresent = true)
    (hremote : env.remote text voice = Except.error e) :
    (generateBrowserSpeech env text = Except.ok () →
      textToSpeech env text voice false = Except.ok none)
    ∧ (∀ e2, generateBrowserSpeech env text = Except.error e2 →
        textToSpeech env text voice false = Except.error e2)
    ∧ (∀ e3, generateBrowserSpeech env text = Except.error e3 →
        textToSpeech env text voice true = Except.error e3) := by
  refine ⟨?_, ?_, ?_⟩
  · intro h
    simp [textToSpeech, hkey, hremote, h]
  · intro e2 h
    simp [textToSpeech, hkey, hremote, h]
  · intro e3 h
    simp [textToSpeech, h]

/-- An environment whose remote synthesis fails but whose browser narrator
works. -/
def c7GoodEnv : SpeechEnv :=
  { apiKeyPresent := true, remote := fun _ _ => Except.error "network",
    createURL := id, synthSupported := true,
    narrator := fun _ => Except.ok () }

/-- Witness for C7 (amended): on a concrete environment with failing remote
and working narrator, a non-forced call resolves with `null`. -/
theorem textToSpeech_fallback_amended_witness :
    c7GoodEnv.remote "hi" "alloy" = Except.error "network"
    ∧ textToSpeech c7GoodEnv "hi" "alloy" false = Except.ok none :=
  ⟨rfl,
   (textToSpeech_fallback_amended c7GoodEnv "hi" "alloy" "network"
      rfl rfl).1 rfl⟩

/-- Helper: after one cleanup pass every remaining audio object has an
empty (cleared) `src`. -/
theorem cleanupGo_clears :
    ∀ (l : List (Option AudioObj)), ∀ o ∈ (cleanupGo l).1,
      ∀ obj, o = some obj → obj.src = "" := by
  intro l
  induction l with
  | nil => intro o ho; simp [cleanupGo] at ho
  | cons a rest ih =>
    intro o ho obj hobj
    cases a with
    | none =>
      simp only [cleanupGo, List.mem_cons] at ho
      rcases ho with h | h
      · rw [h] at hobj; cases hobj
      · exact ih o h obj hobj
    | some x =>
      by_cases hx : x.src = ""
      · simp only [cleanupGo, hx, ne_eq, not_true_eq_false, if_false,
          List.mem_cons] at ho
        rcases ho with h | h
        · rw [h] at hobj
          cases hobj
          exact hx
        · exact ih o h obj hobj
      · simp only [cleanupGo, hx, ne_eq, not_false_eq_true, if_true,
          List.mem_cons] at ho
        rcases ho with h | h
        · rw [h] at hobj
          cases hobj
          rfl
        · exact ih o h obj hobj

/-- Helper: a cleanup pass over a playlist whose objects all have cleared
`src` changes nothing and revokes nothing. -/
theorem cleanupGo_noop :
    ∀ (l : List (Option AudioObj)),
      (∀ o ∈ l, ∀ obj, o = some obj → obj.src = "") →
      (cleanupGo l).1 = l ∧ (cleanupGo l).2 = [] := by
  intro l
  induction l with
  | nil => intro _; exact ⟨rfl, rfl⟩
  | cons a rest ih =>
    intro h
    have hrest := ih (fun o ho obj hobj => h o (List.mem_cons_of_mem _ ho) obj hobj)
    cases a with
    | none => simp [cleanupGo, hrest.1, hrest.2]
    | some x =>
      have hx : x.src = "" := h (some x) (List.mem_cons_self _ _) x rfl
      simp [cleanupGo, hx, hrest.1, hrest.2]

/-- Helper: the first cleanup pass revokes the URL of every object whose
`src` is non-empty. -/
theorem cleanupGo_revokes :
    ∀ (l : List (Option AudioObj)) (obj : AudioObj),
      some obj ∈ l → obj.src ≠ "" → obj.src ∈ (cleanupGo l).2 := by
  intro l
  induction l with
  | nil => intro obj h; simp at h
  | cons a rest ih =>
    intro obj h hsrc
    rcases List.mem_cons.mp h with h | h
    · rw [← h]
      simp [cleanupGo, hsrc]
    · have hm := ih obj h hsrc
      cases a with
      | none => simpa [cleanupGo] using hm
      | some x =>
        by_cases hx : x.src = "" <;>
          simp [cleanupGo, hx, hm]

/-- C8: cleanup called twice on the same playlist frees nothing the second
time — the first call revokes exactly the non-empty resource handles and
clears every reference, while the second call changes nothing and revokes
no URL (no double free); both calls are total, so neither throws. -/
theorem cleanupAudioObjects_idempotent (audios : List (Option AudioObj)) :
    (cleanupAudioObjects (cleanupAudioObjects audios).1).1 =
      (cleanupAudioObjects audios).1
    ∧ (cleanupAudioObjects (cleanupAudioObjects audios).1).2 = []
    ∧ (∀ o ∈ (cleanupAudioObjects audios).1, ∀ obj, o = some obj →
        obj.src = "")
    ∧ (∀ obj, some obj ∈ audios → obj.src ≠ "" →
        obj.src ∈ (cleanupAudioObjects audios).2) := by
  by_cases h : audios.isEmpty
  · rw [List.isEmpty_iff] at h
    subst h
    refine ⟨rfl, rfl, ?_, ?_⟩
    · intro o ho; simp [cleanupAudioObjects] at ho
    · intro obj hm; simp at hm
  · have hdef : cleanupAudioObjects audios = cleanupGo audios := by
      simp [cleanupAudioObjects, h]
    rw [hdef]
    have hclear := cleanupGo_clears audios
    by_cases h2 : (cleanupGo audios).1.isEmpty
    · refine ⟨?_, ?_, hclear, fun obj hm hs => cleanupGo_revokes audios obj hm hs⟩
      · simp [cleanupAudioObjects, h2]
      · simp [cleanupAudioObjects, h2]
    · have hdef2 : cleanupAudioObjects (cleanupGo audios).1 =
          cleanupGo (cleanupGo audios).1 := by
        simp [cleanupAudioObjects, h2]
      rw [hdef2]
      obtain ⟨h1, hrev⟩ := cleanupGo_noop (cleanupGo audios).1 hclear
      exact ⟨h1, hrev, hclear, fun obj hm hs => cleanupGo_revokes audios obj hm hs⟩

/-- Witness for C8: a concrete playlist with one live handle is cleared by
the first call, the URL revoked once, and the second call revokes nothing. -/
theorem cleanupAudioObjects_idempotent_witness :
    (some { src := "blob:1", duration := 5 } ∈
      ([some { src := "blob:1", duration := 5 }, Option.none] :
        List (Option AudioObj)))
    ∧ "blob:1" ∈ (cleanupAudioObjects
        [some { src := "blob:1", duration := 5 }, Option.none]).2
    ∧ (cleanupAudioObjects (cleanupAudioObjects
        [some { src := "blob:1", duration := 5 }, Option.none]).1).2 = [] :=
  ⟨by decide,
   (cleanupAudioObjects_idempotent
      [some { src := "blob:1", duration := 5 }, Option.none]).2.2.2
      { src := "blob:1", duration := 5 } (by decide) (by decide),
   (cleanupAudioObjects_idempotent
      [some { src := "blob:1", duration := 5 }, Option.none]).2.1⟩

/-- C9: when the remote question-generation call rejects, or its response
content fails to parse, `generateCartesianQuestions` propagates no error and
returns exactly the template-based fallback (whose result type carries
exactly the four keys `theorem`, `converse`, `inverse`,
`nonMirrorReverse`); on the concrete belief "I can't swim" the fallback is
the four expected template questions. -/
theorem generateCartesianQuestions_fallback
    (parseJson : String → Except String CartesianQuestionSet)
    (belief apiErr : String) :
    generateCartesianQuestions (Except.error apiErr) parseJson belief =
      generateTemplateQuestions belief (parseBelief belief)
    ∧ (∀ content perr, parseJson content = Except.error perr →
        generateCartesianQuestions (Except.ok content) parseJson belief =
          generateTemplateQuestions belief (parseBelief belief))
    ∧ generateTemplateQuestions "I can\x27t swim"
        (parseBelief "I can\x27t swim") =
        { theoremQ := "What would happen if you did swim?",
          converse := "What wouldn\x27t happen if you did swim?",
          inverse := "What would happen if you didn\x27t swim?",
          nonMirrorReverse :=
            "What wouldn\x27t happen if you didn\x27t swim?" } := by
  refine ⟨rfl, ?_, by decide⟩
  intro content perr h
  simp [generateCartesianQuestions, h]

/-- Witness for C9: a concrete unparseable response routes to the template
fallback. -/
theorem generateCartesianQuestions_fallback_witness :
    ((fun _ => Except.error "bad json" :
        String → Except String CartesianQuestionSet) "x" =
      Except.error "bad json")
    ∧ generateCartesianQuestions (Except.ok "x")
        (fun _ => Except.error "bad json") "I can\x27t swim" =
        generateTemplateQuestions "I can\x27t swim"
          (parseBelief "I can\x27t swim") :=
  ⟨rfl,
   (generateCartesianQuestions_fallback (fun _ => Except.error "bad json")
      "I can\x27t swim" "apierr").2.1 "x" "bad json" rfl⟩

/-- Helper: running app events cannot change `pauseDurationRef` (no code
assigns it) and every pause duration passed to the playback call equals it. -/
theorem runAppFrom_pause_invariant :
    ∀ (es : List AppEvent) (s : AppState), s.pauseDurationRef = 2000 →
      (∀ v ∈ s.playCalls, v = 2000) →
      (runAppFrom s es).pauseDurationRef = 2000
      ∧ ∀ v ∈ (runAppFrom s es).playCalls, v = 2000 := by
  intro es
  induction es with
  | nil => intro s h1 h2; exact ⟨h1, h2⟩
  | cons e es ih =>
    intro s h1 h2
    have hstep : (appStep s e).pauseDurationRef = 2000
        ∧ ∀ v ∈ (appStep s e).playCalls, v = 2000 := by
      cases e with
      | selectPauseDuration n => exact ⟨h1, h2⟩
      | pressPlay =>
        by_cases hv : s.audioObjects.isEmpty
        · simpa [appStep, hv] using ⟨h1, h2⟩
        · refine ⟨by simpa [appStep, hv] using h1, ?_⟩
          intro v hv2
          have hv3 : v ∈ s.pauseDurationRef :: s.playCalls := by
            simpa [appStep, hv] using hv2
          rcases List.mem_cons.mp hv3 with h | h
          · rw [h]; exact h1
          · exact h2 v h
      | pressStop => exact ⟨h1, h2⟩
      | newSession => exact ⟨h1, h2⟩
      | audiosReady l => exact ⟨h1, h2⟩
    exact ih (appStep s e) hstep.1 hstep.2

/-- Helper: running one extra event steps the final state once. -/
theorem runAppFrom_append :
    ∀ (es : List AppEvent) (s : AppState) (e : AppEvent),
      runAppFrom s (es ++ [e]) = appStep (runAppFrom s es) e := by
  intro es
  induction es with
  | nil => intro s e; rfl
  | cons x es ih => intro s e; simp [runAppFrom, ih]

/-- C10: over every sequence of app events, `pauseDurationRef` stays 2000,
so every pause duration the app layer passes to the playback controller is
the constant 2000 ms; appending a pause-duration selection changes only the
`AudioPlayer` control's local state (to the selected value) and leaves the
passed durations untouched — the selection is never delivered to the
controller. -/
theorem app_pause_duration_constant (es : List AppEvent) (n : Nat) :
    (runApp es).pauseDurationRef = 2000
    ∧ (∀ v ∈ (runApp es).playCalls, v = 2000)
    ∧ (runApp (es ++ [AppEvent.selectPauseDuration n])).playCalls =
        (runApp es).playCalls
    ∧ (runApp (es ++ [AppEvent.selectPauseDuration n])).playerLocal.pauseDuration
        = n := by
  have base := runAppFrom_pause_invariant es initialAppState rfl
    (by intro v hv; simp [initialAppState] at hv)
  refine ⟨base.1, base.2, ?_, ?_⟩
  · rw [runApp, runAppFrom_append]; rfl
  · rw [runApp, runAppFrom_append]; rfl

/-- Witness for C10: a session that selects a 5-second pause and then plays
still passes 2000 ms to the controller. -/
theorem app_pause_duration_constant_witness :
    2000 ∈ (runApp [AppEvent.audiosReady [some { src := "u", duration := 1 }],
        AppEvent.selectPauseDuration 5, AppEvent.pressPlay]).playCalls
    ∧ (runApp [AppEvent.audiosReady [some { src := "u", duration := 1 }],
        AppEvent.selectPauseDuration 5, AppEvent.pressPlay]).pauseDurationRef
        = 2000
    ∧ 2000 = 2000 :=
  ⟨by decide,
   (app_pause_duration_constant
      [AppEvent.audiosReady [some { src := "u", duration := 1 }],
       AppEvent.selectPauseDuration 5, AppEvent.pressPlay] 5).1,
   (app_pause_duration_constant
      [AppEvent.audiosReady [some { src := "u", duration := 1 }],
       AppEvent.selectPauseDuration 5, AppEvent.pressPlay] 5).2.1 2000
      (by decide)⟩
